import Mathlib

/-!
Verification of the urknall build executor against its specification.

The Go sources are shallowly embedded: pure functions become Lean
functions, machine words become `Nat` with explicit `% 2 ^ 32`,
fallible code returns `Except`, and the remote target is modelled as
an oracle assigning outcomes to the raw command strings sent to it.
-/

namespace Urknall

/-! ## SHA-256 (embedding of Go `crypto/sha256` + `fmt.Sprintf "%x"`)

`commandChecksum` in `src/utils.go` hashes the command's shell string
with SHA-256 and formats the digest as lowercase hex.  The hash is
implemented here over byte lists (`Nat` values `< 256`), words are
`Nat` reduced mod `2 ^ 32`. -/

def w32 (x : Nat) : Nat := x % 2 ^ 32

def rotr32 (n x : Nat) : Nat := w32 ((x >>> n) ||| (x <<< (32 - n)))

def ch32 (x y z : Nat) : Nat := (x &&& y) ^^^ ((x ^^^ (2 ^ 32 - 1)) &&& z)

def maj32 (x y z : Nat) : Nat := (x &&& y) ^^^ (x &&& z) ^^^ (y &&& z)

def bigSigma0 (x : Nat) : Nat := rotr32 2 x ^^^ rotr32 13 x ^^^ rotr32 22 x

def bigSigma1 (x : Nat) : Nat := rotr32 6 x ^^^ rotr32 11 x ^^^ rotr32 25 x

def smallSigma0 (x : Nat) : Nat := rotr32 7 x ^^^ rotr32 18 x ^^^ (x >>> 3)

def smallSigma1 (x : Nat) : Nat := rotr32 17 x ^^^ rotr32 19 x ^^^ (x >>> 10)

/-- The 64 SHA-256 round constants of FIPS 180-4 (the first 32 bits of
the fractional parts of the cube roots of the first 64 primes),
written in decimal; the test vector theorem below checks them. -/
def K256 : List Nat :=
  [1116352408, 1899447441, 3049323471, 3921009573, 961987163,
   1508970993, 2453635748, 2870763221, 3624381080, 310598401,
   607225278, 1426881987, 1925078388, 2162078206, 2614888103,
   3248222580, 3835390401, 4022224774, 264347078, 604807628,
   770255983, 1249150122, 1555081692, 1996064986, 2554220882,
   2821834349, 2952996808, 3210313671, 3336571891, 3584528711,
   113926993, 338241895, 666307205, 773529912, 1294757372,
   1396182291, 1695183700, 1986661051, 2177026350, 2456956037,
   2730485921, 2820302411, 3259730800, 3345764771, 3516065817,
   3600352804, 4094571909, 275423344, 430227734, 506948616,
   659060556, 883997877, 958139571, 1322822218, 1537002063,
   1747873779, 1955562222, 2024104815, 2227730452, 2361852424,
   2428436474, 2756734187, 3204031479, 3329325298]

/-- SHA-256 working state: eight 32-bit words. -/
structure Hash8 where
  a : Nat
  b : Nat
  c : Nat
  d : Nat
  e : Nat
  f : Nat
  g : Nat
  h : Nat
deriving Repr, DecidableEq

/-- The eight SHA-256 initial hash words of FIPS 180-4 (square-root
fractional parts of the first 8 primes), in decimal. -/
def initHash : Hash8 :=
  ⟨1779033703, 3144134277, 1013904242, 2773480762,
   1359893119, 2600822924, 528734635, 1541459225⟩

/-- `n` bytes of `x`, big-endian. -/
def toBytesBE : Nat → Nat → List Nat
  | 0, _ => []
  | n + 1, x => toBytesBE n (x / 256) ++ [x % 256]

/-- Merkle–Damgård padding: append `0x80`, zeros, and the 64-bit
big-endian bit length, so the total length is a multiple of 64. -/
def sha256pad (msg : List Nat) : List Nat :=
  let z := (120 - (msg.length + 1) % 64) % 64
  msg ++ [0x80] ++ List.replicate z 0 ++ toBytesBE 8 (8 * msg.length)

/-- Split a byte list into chunks of `n` bytes; structural recursion on
a fuel bound so the kernel can evaluate it. -/
def chunksOfAux (n : Nat) : Nat → List Nat → List (List Nat)
  | 0, _ => []
  | _, [] => []
  | fuel + 1, l => l.take n :: chunksOfAux n fuel (l.drop n)

def chunksOf (n : Nat) (l : List Nat) : List (List Nat) :=
  if n = 0 then [] else chunksOfAux n l.length l

/-- The 16 initial 32-bit message-schedule words of a 64-byte block. -/
def blockWords (block : List Nat) : List Nat :=
  (chunksOf 4 block).map fun c =>
    c.getD 0 0 * 2 ^ 24 + c.getD 1 0 * 2 ^ 16 + c.getD 2 0 * 2 ^ 8 + c.getD 3 0

/-- One message-schedule extension step. -/
def scheduleStep (ws : List Nat) : List Nat :=
  let n := ws.length
  ws ++ [w32 (smallSigma1 (ws.getD (n - 2) 0) + ws.getD (n - 7) 0 +
              smallSigma0 (ws.getD (n - 15) 0) + ws.getD (n - 16) 0)]

/-- Full 64-word message schedule of one block. -/
def schedule (block : List Nat) : List Nat :=
  (List.range 48).foldl (fun ws _ => scheduleStep ws) (blockWords block)

/-- One SHA-256 round with round constant `k` and schedule word `w`. -/
def compressStep (st : Hash8) (k w : Nat) : Hash8 :=
  let t1 := w32 (st.h + bigSigma1 st.e + ch32 st.e st.f st.g + k + w)
  let t2 := w32 (bigSigma0 st.a + maj32 st.a st.b st.c)
  ⟨w32 (t1 + t2), st.a, st.b, st.c, w32 (st.d + t1), st.e, st.f, st.g⟩

/-- Compress one 64-byte block into the running hash state. -/
def compressBlock (st : Hash8) (block : List Nat) : Hash8 :=
  let t := (K256.zip (schedule block)).foldl
    (fun s p => compressStep s p.1 p.2) st
  ⟨w32 (st.a + t.a), w32 (st.b + t.b), w32 (st.c + t.c), w32 (st.d + t.d),
   w32 (st.e + t.e), w32 (st.f + t.f), w32 (st.g + t.g), w32 (st.h + t.h)⟩

/-- SHA-256 digest (32 bytes) of a byte list. -/
def sha256 (msg : List Nat) : List Nat :=
  let fin := (chunksOf 64 (sha256pad msg)).foldl compressBlock initHash
  toBytesBE 4 fin.a ++ toBytesBE 4 fin.b ++ toBytesBE 4 fin.c ++
  toBytesBE 4 fin.d ++ toBytesBE 4 fin.e ++ toBytesBE 4 fin.f ++
  toBytesBE 4 fin.g ++ toBytesBE 4 fin.h

/-- Lowercase hex digit for `n < 16`. -/
def hexDigit (n : Nat) : Char := "0123456789abcdef".data.getD n 'x'

/-- Lowercase hex rendering of a byte list, two digits per byte,
as Go's `fmt.Sprintf "%x"` produces for a `[]byte`. -/
def bytesHex (bs : List Nat) : String :=
  ⟨bs.foldr (fun b acc => hexDigit (b / 16 % 16) :: hexDigit (b % 16) :: acc) []⟩

/-- UTF-8 encoding of one code point, as Go's `[]byte(string)`. -/
def utf8Enc (c : Nat) : List Nat :=
  if c < 0x80 then [c]
  else if c < 0x800 then
    [0xc0 ||| (c >>> 6), 0x80 ||| (c &&& 0x3f)]
  else if c < 0x10000 then
    [0xe0 ||| (c >>> 12), 0x80 ||| ((c >>> 6) &&& 0x3f), 0x80 ||| (c &&& 0x3f)]
  else
    [0xf0 ||| (c >>> 18), 0x80 ||| ((c >>> 12) &&& 0x3f),
     0x80 ||| ((c >>> 6) &&& 0x3f), 0x80 ||| (c &&& 0x3f)]

/-- The UTF-8 bytes of a string, as Go's `[]byte(s)`. -/
def strBytes (s : String) : List Nat :=
  (s.data.map fun c => utf8Enc c.toNat).flatten

/-- Lowercase-hex SHA-256 digest of a string: `fmt.Sprintf("%x", sha256.Sum([]byte(s)))`. -/
def sha256hex (s : String) : String := bytesHex (sha256 (strBytes s))

/-- The alphabet `fmt.Sprintf "%x"` draws from. -/
def lowerHexChars : List Char := "0123456789abcdef".data

/-! ## Commands (`src/cmd/command.go`, `src/utils.go`)

A command is anything with `Shell() string`; optionally it also
implements `Checksum() string` and/or `Logging() string`.  The
optional capabilities are embedded as `Option` fields. -/

structure Command where
  shell : String
  checksum : Option String := none
  logging : Option String := none
deriving Repr, DecidableEq

instance : Inhabited Command := ⟨⟨"", none, none⟩⟩

/-- `commandChecksum` (src/utils.go lines 29-40): a custom `Checksum()`
wins; otherwise the lowercase-hex SHA-256 digest of `Shell()`.  Go's
`hash.Write` never returns an error, so the embedding drops the dead
error path and is total. -/
def commandChecksum (c : Command) : String :=
  match c.checksum with
  | some s => s
  | none => sha256hex c.shell

/-- Modelled from the spec: the command wrapper's `LogMsg` (its file is
not under src/) uses the optional `Logging()` label, else `Shell()`
("logLabel() optional; else shell()"). -/
def Command.logMsg (c : Command) : String := c.logging.getD c.shell

/-! ## Runlist.Add (src/runlist.go)

`Add` dispatches on the dynamic type of its argument.  Value copies of
the mutable kinds (`cmd.ShellCommand`, `cmd.FileCommand`) do not
implement `cmd.Command` (their methods have pointer receivers, as the
tests in src/unnamed/part_002 attest by expecting a panic), so they
fall through to the `default:` branch, which panics.  The panic is
embedded as `Except.error` carrying the panic message. -/

structure ShellCommand where
  command : String
deriving Repr, DecidableEq

structure FileCommand where
  path : String
  content : String
deriving Repr, DecidableEq

/-- A value of any other concrete type implementing `cmd.Command`. -/
structure OtherCommand where
  shell : String
deriving Repr, DecidableEq

/-- The dynamic value stored in `Runlist.commands`. -/
inductive CmdValue where
  | shell (c : ShellCommand)
  | file (c : FileCommand)
  | other (c : OtherCommand)
deriving Repr, DecidableEq

/-- The dynamic argument passed to `Runlist.Add`: pointers to the two
mutable kinds, some other `cmd.Command` value, a plain string, or a
value copy of a mutable kind (which satisfies no case of the type
switch). -/
inductive AddArg where
  | shellRef (c : ShellCommand)
  | fileRef (c : FileCommand)
  | commandVal (c : OtherCommand)
  | str (s : String)
  | shellVal (c : ShellCommand)
  | fileVal (c : FileCommand)
deriving Repr, DecidableEq

/-- `Runlist.Add` (src/runlist.go lines 16-33).  `render` models
`utils.MustRenderTemplate(·, rl.pkg)` with the package context baked
in (the `utils` template package is not under src/).  Go's `string`
case recurses as `rl.Add(&cmd.ShellCommand{Command: t})`, which
immediately lands in the `*cmd.ShellCommand` case; that case's body is
written out here because the recursion is over a non-inductive dynamic
argument. -/
def runlistAdd (render : String → String) (commands : List CmdValue) :
    AddArg → Except String (List CmdValue)
  | .shellRef c => .ok (commands ++ [.shell ⟨render c.command⟩])
  | .fileRef c => .ok (commands ++ [.file ⟨c.path, render c.content⟩])
  | .commandVal c => .ok (commands ++ [.other c])
  | .str s => .ok (commands ++ [.shell ⟨render s⟩])
  | .shellVal _ => .error "type cmd.ShellCommand not supported!"
  | .fileVal _ => .error "type cmd.FileCommand not supported!"

/-! ## Build and target model (src/unnamed/part_000)

The remote target is an oracle: `runOk` gives the success of
`ExecCommand.Run` on the raw string handed to `Target.Command`, and
`stdout` gives the bytes such a command writes to its stdout buffer.
`Target.Command` itself is modelled as the identity on the raw string
(its construction never fails in this model). -/

/-- Error values the build produces; each constructor corresponds to
one `fmt.Errorf` site (or to `Reset`'s error, carried verbatim). -/
inductive BuildError where
  | userNotSet
  | execFailed (raw : String)
  | targetUnusable (user : String)
  | resetError (msg : String)
  | corruptCache (checksum : String) (pkgname : String)
  | checksumTreeError (e : BuildError)
  | cacheKeyEmpty
  | commandFailed (msg : String)
deriving Repr, DecidableEq

structure Target where
  user : String
  stringRep : Option String
  runOk : String → Bool
  stdout : String → String
  resetErr : Option BuildError

structure Build where
  target : Target
  env : List String

/-- Modelled from the spec: the dedicated group `UK_GROUP`; the file
declaring the Go constant is not under src/, and no claim depends on
its concrete value. -/
def ukGROUP : String := "urknall"

/-- Modelled from the spec: the fixed cache root `CACHE_ROOT`; the file
declaring the Go constant is not under src/, and no claim depends on
its concrete value. -/
def ukCACHEDIR : String := "/var/lib/urknall"

/-- `Build.hostname` (src/unnamed/part_000 lines 277-282): the
`fmt.Stringer` value when the target provides one, else `"MISSING"`. -/
def Build.hostname (b : Build) : String :=
  match b.target.stringRep with
  | some s => s
  | none => "MISSING"

/-- `Build.prepareCommand` (src/unnamed/part_000 lines 264-270):
prefix `sudo ` unless the configured user is `root`. -/
def prepareCommand (b : Build) (rawCmd : String) : String :=
  (if b.target.user ≠ "root" then "sudo " else "") ++ rawCmd

/-- `Build.prepareInternalCommand` (src/unnamed/part_000 lines
272-275): wrap in a heredoc-bounded `sh -x -e`, then apply
`prepareCommand`. -/
def prepareInternalCommand (b : Build) (rawCmd : String) : String :=
  prepareCommand b ("sh -x -e <<\"EOC\"\n" ++ rawCmd ++ "\nEOC\n")

/-! ## Go standard-library string and path helpers

Embeddings of the `strings` and `path/filepath` functions the build
uses, implemented over the character lists of the strings (Go works
on bytes; for the ASCII separators and markers involved the two views
agree).  They are structurally recursive so concrete runs evaluate
inside the kernel. -/

/-- The white space Go's `unicode.IsSpace` recognises in the Latin-1
range. -/
def isSpaceGo (c : Char) : Bool :=
  c = ' ' ∨ c = '\t' ∨ c = '\n' ∨ c = '\x0b' ∨ c = '\x0c' ∨ c = '\r' ∨
  c = '\x85' ∨ c = '\xa0'

/-- Go `strings.TrimSpace`. -/
def goTrimSpace (s : String) : String :=
  ⟨((s.data.dropWhile isSpaceGo).reverse.dropWhile isSpaceGo).reverse⟩

/-- Go `strings.HasPrefix`. -/
def hasPreGo (s pre : String) : Bool := pre.data.isPrefixOf s.data

/-- Go `strings.HasSuffix`. -/
def hasSufGo (s suf : String) : Bool := suf.data.isSuffixOf s.data

/-- Go `strings.TrimPrefix s pre`: drop `pre` when it leads `s`, else
return `s` unchanged. -/
def trimPre (s pre : String) : String :=
  if hasPreGo s pre then ⟨s.data.drop pre.data.length⟩ else s

/-- Go `strings.TrimSuffix s suf`: drop `suf` when it ends `s`, else
return `s` unchanged. -/
def trimSuf (s suf : String) : String :=
  if hasSufGo s suf then ⟨s.data.take (s.data.length - suf.data.length)⟩ else s

/-- Go `strings.Split` at a single-character separator (the build
splits only at `"\n"` and `"/"`). -/
def splitCharAux (sep : Char) : List Char → List Char → List String
  | [], acc => [⟨acc.reverse⟩]
  | c :: rest, acc =>
    if c = sep then ⟨acc.reverse⟩ :: splitCharAux sep rest []
    else splitCharAux sep rest (c :: acc)

def splitChar (sep : Char) (s : String) : List String :=
  splitCharAux sep s.data []

/-- Go `filepath.Base`: the last element of the path after trailing
slashes are removed; `"."` for the empty path, `"/"` for all-slash
paths. -/
def fpBase (p : String) : String :=
  if p = "" then "."
  else
    let rev := p.data.reverse.dropWhile (· = '/')
    if rev = [] then "/"
    else ⟨(rev.takeWhile (· ≠ '/')).reverse⟩

/-- Stack step of Go `filepath.Clean`: push ordinary components, let
`..` pop one (or survive at the front of a relative path). -/
def cleanStack (rooted : Bool) : List String → List String → List String
  | stk, [] => stk.reverse
  | stk, c :: rest =>
    if c = ".." then
      match stk with
      | top :: stk' =>
        if top = ".." then cleanStack rooted (c :: top :: stk') rest
        else cleanStack rooted stk' rest
      | [] =>
        if rooted then cleanStack rooted [] rest
        else cleanStack rooted [c] rest
    else cleanStack rooted (c :: stk) rest

/-- Go `filepath.Clean` (Unix): lexical cleaning of a path. -/
def fpClean (p : String) : String :=
  if p = "" then "."
  else
    let rooted := hasPreGo p "/"
    let comps := (splitChar '/' p).filter fun c => ¬(c = "" ∨ c = ".")
    let s := (if rooted then "/" else "") ++
      String.intercalate "/" (cleanStack rooted [] comps)
    if s = "" then "." else s

/-- Go `filepath.Dir`: everything up to and including the final slash
(`filepath.Split`), cleaned. -/
def fpDir (p : String) : String :=
  let fileLen := (p.data.reverse.takeWhile (· ≠ '/')).length
  fpClean ⟨p.data.take (p.data.length - fileLen)⟩

/-! ## Checksum tree (src/unnamed/part_000 lines 224-262)

`checksumTree` is Go's `map[string][]string`; it is embedded as an
association list (the build only ever looks keys up, so the map's
iteration order is irrelevant). -/

def ChecksumTree : Type := List (String × List String)

/-- `ct[pkgname] = append(ct[pkgname], checksum)` on the association
list. -/
def ctAppend (ct : ChecksumTree) (k v : String) : ChecksumTree :=
  match ct with
  | [] => [(k, [v])]
  | (k', vs) :: rest =>
    if k' = k then (k', vs ++ [v]) :: rest else (k', vs) :: ctAppend rest k v

/-- `checksumList, found = ct[cacheKey]` on the association list. -/
def ctFind (ct : ChecksumTree) (k : String) : Option (List String) :=
  match ct with
  | [] => none
  | (k', vs) :: rest => if k' = k then some vs else ctFind rest k

/-- The parsing loop of `buildChecksumTree` over the remote command's
stdout, split at newlines: trim each line, skip blanks and lines not
ending in `.done`, extract task name and checksum, and reject any
checksum whose length is not 64. -/
def parseChecksumLines : ChecksumTree → List String → Except BuildError ChecksumTree
  | ct, [] => .ok ct
  | ct, line :: rest =>
    let l := goTrimSpace line
    if l = "" ∨ ¬hasSufGo l ".done" then parseChecksumLines ct rest
    else
      let pkgname := fpDir (trimPre l (ukCACHEDIR ++ "/"))
      let checksum := trimSuf (fpBase l) ".done"
      if checksum.length ≠ 64 then .error (.corruptCache checksum pkgname)
      else parseChecksumLines (ctAppend ct pkgname checksum) rest

/-- The raw remote command `buildChecksumTree` sends: concatenate the
newest `.run` file of every task directory. -/
def checksumReadCmd : String :=
  "[ -d " ++ ukCACHEDIR ++ " ] && \x7b ls " ++ ukCACHEDIR ++
  " | while read dir; do ls -t " ++ ukCACHEDIR ++
  "/$dir/*.run | head -n1 | xargs cat; done; \x7d"

/-- `Build.buildChecksumTree` (src/unnamed/part_000 lines 226-262):
run the read command; on success parse its stdout line by line. -/
def buildChecksumTree (b : Build) : Except BuildError ChecksumTree :=
  let c := prepareInternalCommand b checksumReadCmd
  if b.target.runOk c then
    parseChecksumLines [] (splitChar '\n' (b.target.stdout c))
  else .error (.execFailed c)

/-! ## Tasks and packages (task/package code referenced from
src/unnamed/part_000 and exercised by src/unnamed/part_001)

The `started` timestamp is real time and plays no role in any claim,
so it is not modelled. -/

structure CommandEntry where
  command : Command
  cached : Bool := false
deriving Repr, DecidableEq

instance : Inhabited CommandEntry := ⟨⟨default, false⟩⟩

structure Task where
  name : String
  commands : List CommandEntry
deriving Repr, DecidableEq

structure PackageImpl where
  tasks : List Task
deriving Repr, DecidableEq

/-- The cache-marking loop of `prepareTask` (src/unnamed/part_000
lines 167-180).  Go's `switch` puts `break` in the mismatch case,
which exits only the `switch`, never the surrounding `for` loop: the
loop continues past a mismatch, and an entry is marked cached exactly
when `i < len(checksumList)` and `checksumList[i]` equals the entry's
checksum. -/
def markCached (checksumList : List String) : Nat → List CommandEntry → List CommandEntry
  | _, [] => []
  | i, c :: rest =>
    (if i < checksumList.length ∧ commandChecksum c.command = checksumList.getD i ""
     then { c with cached := true } else c) :: markCached checksumList (i + 1) rest

/-- The remote command creating a task's checksum dir with the setgid
group bit. -/
def mkdirTaskCmd (tname : String) : String :=
  "mkdir -m2775 -p " ++ ukCACHEDIR ++ "/" ++ tname

/-- `Build.prepareTask` (src/unnamed/part_000 lines 139-183): empty
task names are rejected; a task absent from the tree gets its checksum
dir created remotely (which may fail) and an empty (`nil`) checksum
list; then the marking loop runs. -/
def prepareTask (b : Build) (tsk : Task) (ct : ChecksumTree) : Except BuildError Task :=
  if tsk.name = "" then .error .cacheKeyEmpty
  else
    match ctFind ct tsk.name with
    | some l => .ok ⟨tsk.name, markCached l 0 tsk.commands⟩
    | none =>
      let c := prepareInternalCommand b (mkdirTaskCmd tsk.name)
      if b.target.runOk c then .ok ⟨tsk.name, markCached [] 0 tsk.commands⟩
      else .error (.execFailed c)

/-! ## Target preparation (src/unnamed/part_000 lines 104-137) -/

/-- The preflight check: group exists, user is a member, `CACHE_ROOT`
exists, `.v2` sentinel present. -/
def preflightCmd (user : String) : String :=
  "\x7b grep \"^" ++ ukGROUP ++ ":\" /etc/group | grep " ++ user ++
  "; \x7d && [ -d " ++ ukCACHEDIR ++ " ] && [ -f " ++ ukCACHEDIR ++ "/.v2 ]"

/-- The four repair steps: create group if missing, create `CACHE_ROOT`
with mode 2775 and group ownership, add the user to the group, migrate
pre-`.v2` layouts. -/
def repairCmds (user : String) : List String :=
  ["\x7b grep -e \x27^" ++ ukGROUP ++ ":\x27 /etc/group > /dev/null || \x7b groupadd " ++
     ukGROUP ++ "; \x7d; \x7d",
   "\x7b [ -d " ++ ukCACHEDIR ++ " ] || \x7b mkdir -p -m 2775 " ++ ukCACHEDIR ++
     " && chgrp " ++ ukGROUP ++ " " ++ ukCACHEDIR ++ "; \x7d; \x7d",
   "usermod -a -G " ++ ukGROUP ++ " " ++ user,
   "[ -f " ++ ukCACHEDIR ++ "/.v2 ] || \x7b export DATE=$(date \"+%Y%m%d_%H%M%S\") && ls " ++
     ukCACHEDIR ++ " | while read dir; do ls -t " ++ ukCACHEDIR ++
     "/$dir/*.done | tac > " ++ ukCACHEDIR ++ "/$dir/$DATE.run; done && touch " ++
     ukCACHEDIR ++ "/.v2;  \x7d "]

/-- `Build.prepareTarget` (src/unnamed/part_000 lines 104-137),
returning alongside the result the raw strings of the remote commands
it ran, in order.  When the preflight fails, the repair command runs;
if the repair fails the build fails; otherwise `Reset()`'s result is
returned directly — the preflight is not run again. -/
def prepareTarget (b : Build) : Except BuildError Unit × List String :=
  if b.target.user = "" then (.error .userNotSet, [])
  else
    let pre := prepareInternalCommand b (preflightCmd b.target.user)
    if b.target.runOk pre then (.ok (), [pre])
    else
      let rep := prepareInternalCommand b
        (String.intercalate " && " (repairCmds b.target.user))
      if b.target.runOk rep then
        (match b.target.resetErr with
         | none => .ok ()
         | some e => .error e, [pre, rep])
      else (.error (.targetUnusable b.target.user), [pre, rep])

/-- `Build.prepareBuild` (src/unnamed/part_000 lines 80-102) for the
tasks of one package.  `renderTemplate` delegates to the template's
`Render` (not under src/), so the embedding takes the already-rendered
package as input; a failed checksum-tree build is wrapped, as in the
Go `fmt.Errorf("error building checksum tree: ...")`. -/
def prepareTasks (b : Build) (ct : ChecksumTree) : List Task → Except BuildError (List Task)
  | [] => .ok []
  | t :: rest =>
    match prepareTask b t ct with
    | .error e => .error e
    | .ok t' =>
      match prepareTasks b ct rest with
      | .error e => .error e
      | .ok rest' => .ok (t' :: rest')

def prepareBuild (b : Build) (pkg : PackageImpl) : Except BuildError PackageImpl :=
  match (prepareTarget b).1 with
  | .error e => .error e
  | .ok _ =>
    match buildChecksumTree b with
    | .error e => .error (.checksumTreeError e)
    | .ok ct =>
      match prepareTasks b ct pkg.tasks with
      | .error e => .error e
      | .ok ts => .ok ⟨ts⟩

/-! ## Executing a build (src/unnamed/part_000 lines 38-78, 185-222)

Modelled from the spec where the pubsub package and the remote task
runner are not under src/: a message is the record of fields the build
populates, the status constants take the spec taxonomy's names, and
the runner's outcome for a command of a task is the oracle `runner`. -/

structure Message where
  key : String
  hostname : String
  taskName : String
  taskChecksum : String := ""
  message : String := ""
  execStatus : String := ""
  publish : String := ""
  error : Option BuildError := none
deriving Repr, DecidableEq

def MessageRunlistsProvision : String := "runlists.provision"

def MessageRunlistsProvisionTask : String := "runlists.provision.task"

def StatusCached : String := "cached"

def StatusExecStart : String := "exec-start"

def StatusExecFinished : String := "exec-finished"

/-- The `message(key, hostname, runlist)` helper (not under src/):
a fresh message carrying topic, hostname and task name. -/
def message (key host tname : String) : Message :=
  { key := key, hostname := host, taskName := tname }

/-- The outcome the remote task runner reports for (task name,
command). -/
def RunnerOracle : Type := String → Command → Option BuildError

/-- The per-command loop of `Build.buildTask` (src/unnamed/part_000
lines 190-219): publish a cached/started/finished message per entry,
hand non-cached entries to the remote task runner, stop at its first
error.  Returns (published messages, entries handed to the runner,
first error). -/
def buildTaskLoop (b : Build) (runner : RunnerOracle) (tname : String) :
    List CommandEntry → List Message × List (String × Command) × Option BuildError
  | [] => ([], [], none)
  | c :: rest =>
    let m0 := message MessageRunlistsProvisionTask b.hostname tname
    let base := { m0 with taskChecksum := commandChecksum c.command,
                          message := c.command.logMsg }
    if c.cached then
      let m := { base with execStatus := StatusCached, publish := "finished" }
      let r := buildTaskLoop b runner tname rest
      (m :: r.1, r.2.1, r.2.2)
    else
      let mStart := { base with execStatus := StatusExecStart, publish := "started" }
      match runner tname c.command with
      | none =>
        let mFin := { base with execStatus := StatusExecFinished, publish := "finished" }
        let r := buildTaskLoop b runner tname rest
        (mStart :: mFin :: r.1, (tname, c.command) :: r.2.1, r.2.2)
      | some e =>
        let mFin := { base with execStatus := StatusExecFinished,
                                error := some e, publish := "finished" }
        ([mStart, mFin], [(tname, c.command)], some e)

def buildTask (b : Build) (runner : RunnerOracle) (tsk : Task) :
    List Message × List (String × Command) × Option BuildError :=
  buildTaskLoop b runner tsk.name tsk.commands

/-- The task loop of `Build.Run` (src/unnamed/part_000 lines 45-50):
stop at the first failing task. -/
def runTasks (b : Build) (runner : RunnerOracle) :
    List Task → List Message × List (String × Command) × Option BuildError
  | [] => ([], [], none)
  | t :: rest =>
    let r := buildTask b runner t
    match r.2.2 with
    | some e => (r.1, r.2.1, some e)
    | none =>
      let r' := runTasks b runner rest
      (r.1 ++ r'.1, r.2.1 ++ r'.2.1, r'.2.2)

structure RunResult where
  msgs : List Message
  executed : List (String × Command)
  result : Option BuildError
deriving Repr, DecidableEq

/-- `Build.Run` (src/unnamed/part_000 lines 38-53). -/
def Build.run (b : Build) (pkg : PackageImpl) (runner : RunnerOracle) : RunResult :=
  match prepareBuild b pkg with
  | .error e => ⟨[], [], some e⟩
  | .ok pkg' =>
    let m := message MessageRunlistsProvision b.hostname ""
    let r := runTasks b runner pkg'.tasks
    match r.2.2 with
    | some e =>
      ⟨{ m with publish := "started" } :: r.1 ++
         [{ m with error := some e, publish := "error" }], r.2.1, some e⟩
    | none =>
      ⟨{ m with publish := "started" } :: r.1 ++
         [{ m with publish := "finished" }], r.2.1, none⟩

/-- The message `Build.DryRun` (src/unnamed/part_000 lines 55-78)
publishes for one entry. -/
def dryRunMsg (b : Build) (tname : String) (c : CommandEntry) : Message :=
  let m0 := message MessageRunlistsProvisionTask b.hostname tname
  let base := { m0 with taskChecksum := commandChecksum c.command,
                        message := c.command.logMsg }
  if c.cached then { base with execStatus := StatusCached, publish := "finished" }
  else { base with execStatus := StatusExecStart, publish := "executed" }

/-- `Build.DryRun` (src/unnamed/part_000 lines 55-78). -/
def Build.dryRun (b : Build) (pkg : PackageImpl) : List Message × Option BuildError :=
  match prepareBuild b pkg with
  | .error e => ([], some e)
  | .ok pkg' =>
    ((pkg'.tasks.map fun t => t.commands.map fun c => dryRunMsg b t.name c).flatten,
     none)

/-- Reference executor written from the spec's words, for the
refinement claim about `Run`: flatten the package into (task name,
entry) pairs, skip cached entries, execute the rest in order, stop at
the first error and surface it. -/
def specExecute (runner : RunnerOracle) :
    List (String × CommandEntry) → List (String × Command) × Option BuildError
  | [] => ([], none)
  | (t, c) :: rest =>
    if c.cached then specExecute runner rest
    else
      match runner t c.command with
      | some e => ([(t, c.command)], some e)
      | none =>
        let r := specExecute runner rest
        ((t, c.command) :: r.1, r.2)

/-- The package's entries in execution order: package order across
tasks, entry order within a task. -/
def flattenPkg (pkg : PackageImpl) : List (String × CommandEntry) :=
  (pkg.tasks.map fun t => t.commands.map fun c => (t.name, c)).flatten

/-- The environment-prefixing loop of `executeCommand` (src/utils.go
lines 20-27): every entry of the build's `Env` list is prepended in
turn as `"<entry> "` to the command's shell string. -/
def executeCommandShell (env : List String) (sCmd : String) : String :=
  env.foldl (fun s e => e ++ " " ++ s) sCmd

/-- Concrete target for evaluating theorems: every remote command
succeeds and writes `out` to stdout. -/
def allOkBuild (user : String) (rep : Option String) (out : String) : Build :=
  ⟨⟨user, rep, fun _ => true, fun _ => out, none⟩, []⟩

/-- Concrete target on which exactly the preflight check fails: the
repair runs successfully and the reset succeeds. -/
def repairOnlyBuild : Build :=
  ⟨⟨"deploy", none,
    fun s => !(s == "sudo " ++
      ("sh -x -e <<\"EOC\"\n" ++ preflightCmd "deploy" ++ "\nEOC\n")),
    fun _ => "", none⟩, []⟩

/-! # Theorems -/

set_option maxRecDepth 100000 in
/-- FIPS 180-4 test vector, validating the embedding of `crypto/sha256`. -/
theorem sha256hex_abc :
    sha256hex "abc" =
      "ba7816bf8f01cfea414140de5dae2223b00361a396177a9cb410ff61f20015ad" := by
  decide

theorem length_toBytesBE (n x : Nat) : (toBytesBE n x).length = n := by
  induction n generalizing x with
  | zero => rfl
  | succ n ih => simp [toBytesBE, ih]

theorem length_sha256 (msg : List Nat) : (sha256 msg).length = 32 := by
  simp [sha256, length_toBytesBE]

theorem data_length_bytesHex (bs : List Nat) :
    (bytesHex bs).data.length = 2 * bs.length := by
  unfold bytesHex
  induction bs with
  | nil => rfl
  | cons b rest ih => simpa [List.foldr_cons, Nat.mul_succ] using ih

theorem hexDigit_mem {n : Nat} (h : n < 16) : hexDigit n ∈ lowerHexChars := by
  have hl : lowerHexChars.length = 16 := by decide
  have h' : n < lowerHexChars.length := by omega
  rw [hexDigit, show "0123456789abcdef".data = lowerHexChars from rfl,
      List.getD_eq_getElem lowerHexChars 'x' h']
  exact List.getElem_mem h'

theorem bytesHex_lowerHex (bs : List Nat) :
    ∀ c ∈ (bytesHex bs).data, c ∈ lowerHexChars := by
  unfold bytesHex
  induction bs with
  | nil => intro c hc; cases hc
  | cons b rest ih =>
    intro c hc
    simp only [List.foldr_cons, List.mem_cons] at hc
    rcases hc with h | h | h
    · exact h ▸ hexDigit_mem (Nat.mod_lt _ (by norm_num))
    · exact h ▸ hexDigit_mem (Nat.mod_lt _ (by norm_num))
    · exact ih c h

/-- C2: a command's fingerprint is its custom `Checksum()` verbatim
when one is provided; otherwise it is the lowercase hexadecimal
SHA-256 digest of the exact string `Shell()` returns — a 64-character
string over the lowercase hex alphabet. -/
theorem claim_C2 (c : Command) :
    (∀ s, c.checksum = some s → commandChecksum c = s) ∧
    (c.checksum = none →
      commandChecksum c = sha256hex c.shell ∧
      (commandChecksum c).length = 64 ∧
      ∀ ch ∈ (commandChecksum c).data, ch ∈ lowerHexChars) := by
  refine ⟨fun s hs => by simp [commandChecksum, hs], fun h => ?_⟩
  have he : commandChecksum c = sha256hex c.shell := by simp [commandChecksum, h]
  refine ⟨he, ?_, ?_⟩
  · rw [he]
    show (bytesHex (sha256 (strBytes c.shell))).data.length = 64
    rw [data_length_bytesHex, length_sha256]
  · rw [he]
    exact bytesHex_lowerHex _

set_option maxRecDepth 100000 in
/-- Witness for C2 at the commands `Shell() = "abc"` (no custom
checksum) and `Shell() = "ls"` with custom checksum `"custom-id"`. -/
theorem claim_C2_witness :
    commandChecksum ⟨"abc", none, none⟩ =
      "ba7816bf8f01cfea414140de5dae2223b00361a396177a9cb410ff61f20015ad" ∧
    commandChecksum ⟨"ls", some "custom-id", none⟩ = "custom-id" := by
  refine ⟨?_, (claim_C2 ⟨"ls", some "custom-id", none⟩).1 "custom-id" rfl⟩
  have h := ((claim_C2 ⟨"abc", none, none⟩).2 rfl).1
  rw [h]
  exact sha256hex_abc

/-- C6: a raw string sent to the target is prefixed with `sudo `
exactly when the configured user is not `root`, and an internal
command is first wrapped in the heredoc-bounded `sh -x -e` invocation,
the sudo prefix being applied outside the wrapper. -/
theorem claim_C6 (b : Build) (raw : String) :
    (b.target.user ≠ "root" →
      prepareCommand b raw = "sudo " ++ raw ∧
      prepareInternalCommand b raw =
        "sudo " ++ ("sh -x -e <<\"EOC\"\n" ++ raw ++ "\nEOC\n")) ∧
    (b.target.user = "root" →
      prepareCommand b raw = raw ∧
      prepareInternalCommand b raw = "sh -x -e <<\"EOC\"\n" ++ raw ++ "\nEOC\n") := by
  constructor <;> intro h <;>
    simp [prepareCommand, prepareInternalCommand, h, String.empty_append]

/-- Witness for C6: a non-root build sudo-wraps the internal command,
a root build passes raw strings through. -/
theorem claim_C6_witness :
    prepareInternalCommand ⟨⟨"deploy", none, fun _ => true, fun _ => "", none⟩, []⟩ "ls" =
      "sudo " ++ ("sh -x -e <<\"EOC\"\nls\nEOC\n") ∧
    prepareCommand ⟨⟨"root", none, fun _ => true, fun _ => "", none⟩, []⟩ "ls" = "ls" :=
  ⟨((claim_C6 ⟨⟨"deploy", none, fun _ => true, fun _ => "", none⟩, []⟩ "ls").1
      (by decide)).2,
   ((claim_C6 ⟨⟨"root", none, fun _ => true, fun _ => "", none⟩, []⟩ "ls").2 rfl).1⟩

theorem executeCommandShell_suffix (env : List String) (s : String) :
    ∃ p, executeCommandShell env s = p ++ s := by
  induction env generalizing s with
  | nil => exact ⟨"", (String.empty_append s).symm⟩
  | cons a rest ih =>
    obtain ⟨p, hp⟩ := ih (a ++ " " ++ s)
    refine ⟨p ++ (a ++ " "), ?_⟩
    show executeCommandShell rest (a ++ " " ++ s) = p ++ (a ++ " ") ++ s
    rw [hp]
    simp [String.append_assoc]

/-- C7: every entry of the build's `Env` list appears verbatim,
followed by a space, as a prefix component ahead of the command's
shell string in the invocation `executeCommand` builds. -/
theorem claim_C7 (env : List String) (sCmd e : String) (he : e ∈ env) :
    ∃ pre post, executeCommandShell env sCmd = pre ++ (e ++ " ") ++ (post ++ sCmd) := by
  induction env generalizing sCmd with
  | nil => cases he
  | cons a rest ih =>
    rcases List.mem_cons.mp he with rfl | hmem
    · obtain ⟨p, hp⟩ := executeCommandShell_suffix rest (e ++ " " ++ sCmd)
      refine ⟨p, "", ?_⟩
      show executeCommandShell rest (e ++ " " ++ sCmd) = p ++ (e ++ " ") ++ ("" ++ sCmd)
      rw [hp, String.empty_append]
      simp [String.append_assoc]
    · obtain ⟨pre, post, hp⟩ := ih (a ++ " " ++ sCmd) hmem
      refine ⟨pre, post ++ (a ++ " "), ?_⟩
      show executeCommandShell rest (a ++ " " ++ sCmd) =
        pre ++ (e ++ " ") ++ ((post ++ (a ++ " ")) ++ sCmd)
      rw [hp]
      simp [String.append_assoc]

/-- Witness for C7 at `Env = ["A=1", "B=2"]` and shell string `"ls"`. -/
theorem claim_C7_witness :
    ∃ pre post, executeCommandShell ["A=1", "B=2"] "ls" = pre ++ ("A=1" ++ " ") ++ (post ++ "ls") :=
  claim_C7 ["A=1", "B=2"] "ls" "A=1" (by decide)

/-- C8: adding a value copy of a mutable command kind (shell or file
command) is rejected — the type switch's `default:` branch panics with
the `"type %T not supported!"` message (the spec's `InvalidCommand`) —
and nothing is appended to the command list. -/
theorem claim_C8 (render : String → String) (commands : List CmdValue)
    (sc : ShellCommand) (fc : FileCommand) :
    runlistAdd render commands (.shellVal sc) =
      .error "type cmd.ShellCommand not supported!" ∧
    runlistAdd render commands (.fileVal fc) =
      .error "type cmd.FileCommand not supported!" :=
  ⟨rfl, rfl⟩

/-- C9: adding a plain string appends a `ShellCommand` whose `Command`
field is the string expanded against the package's configuration, and
is interchangeable with adding that `ShellCommand` by reference. -/
theorem claim_C9 (render : String → String) (commands : List CmdValue) (s : String) :
    runlistAdd render commands (.str s) = .ok (commands ++ [.shell ⟨render s⟩]) ∧
    runlistAdd render commands (.str s) = runlistAdd render commands (.shellRef ⟨s⟩) :=
  ⟨rfl, rfl⟩

theorem markCached_getD (l : List String) (cmds : List CommandEntry) :
    ∀ n i, i < cmds.length →
      (markCached l n cmds).getD i default =
        (if n + i < l.length ∧
            commandChecksum ((cmds.getD i default).command) = l.getD (n + i) ""
         then { cmds.getD i default with cached := true }
         else cmds.getD i default) := by
  induction cmds with
  | nil => intro n i hi; simp at hi
  | cons c rest ih =>
    intro n i hi
    cases i with
    | zero => simp [markCached]
    | succ i =>
      have h' := ih (n + 1) i (by simpa using hi)
      simp only [markCached, List.getD_cons_succ]
      rw [h']
      have e1 : n + 1 + i = n + (i + 1) := by omega
      rw [e1]

/-- C1 counterexample: with cached checksum list `["b", "x"]` and two
commands whose checksums are `"a"` and `"x"`, position 0 mismatches,
yet the entry at position 1 is still marked cached — the first
mismatch does not break the streak in the code (Go's `break` exits
only the `switch`). -/
theorem claim_C1_counterexample :
    commandChecksum ⟨"c0", some "a", none⟩ ≠ ["b", "x"].getD 0 "" ∧
    ((markCached ["b", "x"] 0
        [⟨⟨"c0", some "a", none⟩, false⟩,
         ⟨⟨"c1", some "x", none⟩, false⟩]).getD 1 default).cached = true := by
  decide

/-- C1 (amended): in the per-task diff an entry at position `i` is
marked cached exactly when `i` is within the cached checksum list and
the list's entry at `i` equals the entry's checksum; matching is
purely positional and independent per entry — an earlier mismatch
does not prevent a later positional match from being marked cached. -/
theorem claim_C1 (l : List String) (cmds : List CommandEntry)
    (h0 : ∀ c ∈ cmds, c.cached = false) (i : Nat) (hi : i < cmds.length) :
    (((markCached l 0 cmds).getD i default).cached = true ↔
      (i < l.length ∧ commandChecksum ((cmds.getD i default).command) = l.getD i "")) := by
  have h := markCached_getD l cmds 0 i hi
  simp only [Nat.zero_add] at h
  rw [h]
  by_cases hc : i < l.length ∧ commandChecksum ((cmds.getD i default).command) = l.getD i ""
  · rw [if_pos hc]
    exact ⟨fun _ => hc, fun _ => rfl⟩
  · have hmem : cmds.getD i default ∈ cmds := by
      rw [List.getD_eq_getElem cmds default hi]
      exact List.getElem_mem hi
    rw [if_neg hc, h0 _ hmem]
    exact iff_of_false (by simp) hc

/-- Witness for C1 (amended): a single command whose checksum matches
the cached list's entry at position 0 is marked cached. -/
theorem claim_C1_witness :
    ((markCached ["x"] 0 [⟨⟨"c", some "x", none⟩, false⟩]).getD 0 default).cached = true :=
  (claim_C1 ["x"] [⟨⟨"c", some "x", none⟩, false⟩] (by decide) 0 (by decide)).mpr
    (by decide)

/-- C4 (amended): target preparation tolerates exactly one expected
failure, the initial preflight check.  When the preflight fails, the
single repair command runs; if the repair fails, preparation fails
with the TargetUnusable error; if the repair succeeds, the transport
is reset and the reset's result is returned directly — the preflight
check is not run a second time. -/
theorem claim_C4 (b : Build) (hu : b.target.user ≠ "") :
    (b.target.runOk (prepareInternalCommand b (preflightCmd b.target.user)) = true →
      prepareTarget b =
        (.ok (), [prepareInternalCommand b (preflightCmd b.target.user)])) ∧
    (b.target.runOk (prepareInternalCommand b (preflightCmd b.target.user)) = false →
      b.target.runOk (prepareInternalCommand b
        (String.intercalate " && " (repairCmds b.target.user))) = false →
      prepareTarget b =
        (.error (.targetUnusable b.target.user),
         [prepareInternalCommand b (preflightCmd b.target.user),
          prepareInternalCommand b
            (String.intercalate " && " (repairCmds b.target.user))])) ∧
    (b.target.runOk (prepareInternalCommand b (preflightCmd b.target.user)) = false →
      b.target.runOk (prepareInternalCommand b
        (String.intercalate " && " (repairCmds b.target.user))) = true →
      prepareTarget b =
        ((match b.target.resetErr with
          | none => .ok ()
          | some e => .error e),
         [prepareInternalCommand b (preflightCmd b.target.user),
          prepareInternalCommand b
            (String.intercalate " && " (repairCmds b.target.user))])) := by
  refine ⟨fun h1 => ?_, fun h1 h2 => ?_, fun h1 h2 => ?_⟩
  · simp [prepareTarget, hu, h1]
  · simp [prepareTarget, hu, h1, h2]
  · simp [prepareTarget, hu, h1, h2]

/-- C4 counterexample: a target where the preflight fails, the repair
succeeds and the reset succeeds.  Preparation succeeds, yet the
preflight command was sent to the target exactly once — it is not
retried after the repair. -/
theorem claim_C4_counterexample :
    (prepareTarget repairOnlyBuild).1 = .ok () ∧
    (prepareTarget repairOnlyBuild).2.count
      (prepareInternalCommand repairOnlyBuild (preflightCmd "deploy")) = 1 :=
  ⟨rfl, by decide⟩

/-- Witness for C4 (amended): on an all-healthy root target the
preflight passes and is the only command sent. -/
theorem claim_C4_witness :
    prepareTarget ⟨⟨"root", none, fun _ => true, fun _ => "", none⟩, []⟩ =
      (.ok (), [prepareInternalCommand
        ⟨⟨"root", none, fun _ => true, fun _ => "", none⟩, []⟩
        (preflightCmd "root")]) :=
  (claim_C4 ⟨⟨"root", none, fun _ => true, fun _ => "", none⟩, []⟩ (by decide)).1 rfl

theorem parseChecksumLines_bad (lines : List String) :
    ∀ ct, (∃ l ∈ lines, ¬(goTrimSpace l = "" ∨ ¬hasSufGo (goTrimSpace l) ".done") ∧
        (trimSuf (fpBase (goTrimSpace l)) ".done").length ≠ 64) →
      ∃ chk pkg, parseChecksumLines ct lines = .error (.corruptCache chk pkg) ∧
        chk.length ≠ 64 := by
  induction lines with
  | nil => intro ct h; simp at h
  | cons line rest ih =>
    intro ct h
    obtain ⟨l, hl, hproc, hlen⟩ := h
    by_cases hskip : goTrimSpace line = "" ∨ ¬hasSufGo (goTrimSpace line) ".done"
    · have hstep : parseChecksumLines ct (line :: rest) = parseChecksumLines ct rest := by
        simp only [parseChecksumLines]
        rw [if_pos hskip]
      rw [hstep]
      apply ih
      rcases List.mem_cons.mp hl with rfl | hmem
      · exact absurd hskip hproc
      · exact ⟨l, hmem, hproc, hlen⟩
    · by_cases hl64 : (trimSuf (fpBase (goTrimSpace line)) ".done").length ≠ 64
      · refine ⟨trimSuf (fpBase (goTrimSpace line)) ".done",
          fpDir (trimPre (goTrimSpace line) (ukCACHEDIR ++ "/")), ?_, hl64⟩
        simp only [parseChecksumLines]
        rw [if_neg hskip, if_pos hl64]
      · have hstep : parseChecksumLines ct (line :: rest) =
            parseChecksumLines
              (ctAppend ct (fpDir (trimPre (goTrimSpace line) (ukCACHEDIR ++ "/")))
                (trimSuf (fpBase (goTrimSpace line)) ".done")) rest := by
          simp only [parseChecksumLines]
          rw [if_neg hskip, if_neg hl64]
        rw [hstep]
        apply ih
        rcases List.mem_cons.mp hl with rfl | hmem
        · exact absurd hlen hl64
        · exact ⟨l, hmem, hproc, hlen⟩

/-- C3: when the remote checksum-tree read succeeds but its output
contains a non-blank line ending in `.done` whose extracted checksum
is not 64 characters long, building the checksum tree fails with the
CorruptCache error, `prepareBuild` aborts with it, and `Run` executes
no package command and returns the error to the caller. -/
theorem claim_C3 (b : Build) (pkg : PackageImpl) (runner : RunnerOracle)
    (hpre : (prepareTarget b).1 = .ok ())
    (hread : b.target.runOk (prepareInternalCommand b checksumReadCmd) = true)
    (hbad : ∃ l ∈ splitChar '\n' (b.target.stdout (prepareInternalCommand b checksumReadCmd)),
        ¬(goTrimSpace l = "" ∨ ¬hasSufGo (goTrimSpace l) ".done") ∧
        (trimSuf (fpBase (goTrimSpace l)) ".done").length ≠ 64) :
    ∃ chk pkgname, chk.length ≠ 64 ∧
      buildChecksumTree b = .error (.corruptCache chk pkgname) ∧
      prepareBuild b pkg = .error (.checksumTreeError (.corruptCache chk pkgname)) ∧
      (b.run pkg runner).executed = [] ∧
      (b.run pkg runner).result =
        some (.checksumTreeError (.corruptCache chk pkgname)) := by
  obtain ⟨chk, pkgname, herr, hlen⟩ := parseChecksumLines_bad _ [] hbad
  have htree : buildChecksumTree b = .error (.corruptCache chk pkgname) := by
    simp only [buildChecksumTree]
    rw [if_pos hread]
    exact herr
  have hprep : prepareBuild b pkg =
      .error (.checksumTreeError (.corruptCache chk pkgname)) := by
    simp only [prepareBuild]
    rw [hpre, htree]
  refine ⟨chk, pkgname, hlen, htree, hprep, ?_, ?_⟩ <;>
    simp [Build.run, hprep, RunResult.executed, RunResult.result]

/-- Witness for C3: a healthy root target whose cache read yields the
line `/var/lib/urknall/base/abc.done` — checksum `"abc"` has length 3,
so the build aborts before executing anything. -/
theorem claim_C3_witness :
    ∃ chk pkgname, chk.length ≠ 64 ∧
      buildChecksumTree (allOkBuild "root" none "/var/lib/urknall/base/abc.done") =
        .error (.corruptCache chk pkgname) ∧
      prepareBuild (allOkBuild "root" none "/var/lib/urknall/base/abc.done") ⟨[]⟩ =
        .error (.checksumTreeError (.corruptCache chk pkgname)) ∧
      ((allOkBuild "root" none "/var/lib/urknall/base/abc.done").run ⟨[]⟩
        (fun _ _ => none)).executed = [] ∧
      ((allOkBuild "root" none "/var/lib/urknall/base/abc.done").run ⟨[]⟩
        (fun _ _ => none)).result =
        some (.checksumTreeError (.corruptCache chk pkgname)) :=
  claim_C3 (allOkBuild "root" none "/var/lib/urknall/base/abc.done") ⟨[]⟩
    (fun _ _ => none) rfl rfl
    ⟨"/var/lib/urknall/base/abc.done", by decide, by decide, by decide⟩

theorem buildTaskLoop_spec (b : Build) (runner : RunnerOracle) (t : String)
    (cs : List CommandEntry) :
    (buildTaskLoop b runner t cs).2 = specExecute runner (cs.map fun c => (t, c)) := by
  induction cs with
  | nil => rfl
  | cons c rest ih =>
    by_cases hc : c.cached = true
    · simpa [buildTaskLoop, specExecute, hc] using ih
    · cases hrun : runner t c.command with
      | some e => simp [buildTaskLoop, specExecute, hc, hrun]
      | none => simp [buildTaskLoop, specExecute, hc, hrun, ih]

theorem specExecute_append (runner : RunnerOracle)
    (xs ys : List (String × CommandEntry)) :
    specExecute runner (xs ++ ys) =
      (match (specExecute runner xs).2 with
       | some _ => specExecute runner xs
       | none => ((specExecute runner xs).1 ++ (specExecute runner ys).1,
                  (specExecute runner ys).2)) := by
  induction xs with
  | nil => simp [specExecute]
  | cons p rest ih =>
    obtain ⟨t, c⟩ := p
    by_cases hc : c.cached = true
    · simpa [specExecute, hc] using ih
    · cases hrun : runner t c.command with
      | some e => simp [specExecute, hc, hrun]
      | none =>
        cases h2 : (specExecute runner rest).2 <;>
          simp [specExecute, hc, hrun, ih, h2]

theorem flattenPkg_cons (t : Task) (ts : List Task) :
    flattenPkg ⟨t :: ts⟩ = (t.commands.map fun c => (t.name, c)) ++ flattenPkg ⟨ts⟩ := by
  simp [flattenPkg]

theorem runTasks_spec (b : Build) (runner : RunnerOracle) (ts : List Task) :
    (runTasks b runner ts).2 = specExecute runner (flattenPkg ⟨ts⟩) := by
  induction ts with
  | nil => rfl
  | cons t rest ih =>
    rw [flattenPkg_cons, specExecute_append]
    have hb := buildTaskLoop_spec b runner t.name t.commands
    simp only [runTasks, buildTask]
    cases h2 : (buildTaskLoop b runner t.name t.commands).2.2 with
    | some e =>
      simp only [h2, ← hb]
      rw [← h2]
    | none => simp [h2, ← hb, ← ih]

/-- C5: `Run` executes tasks in package order and entries in order
within each task, skips entries marked cached, hands the rest to the
remote runner, and on the first error stops — no entry after the
failing one (in the same task or any later task) reaches the runner —
returning that error to the caller: the executed list and result
coincide with the spec's reference executor over the flattened
package. -/
theorem claim_C5 (b : Build) (pkg pkg' : PackageImpl) (runner : RunnerOracle)
    (h : prepareBuild b pkg = .ok pkg') :
    (b.run pkg runner).executed = (specExecute runner (flattenPkg pkg')).1 ∧
    (b.run pkg runner).result = (specExecute runner (flattenPkg pkg')).2 := by
  have hr := runTasks_spec b runner pkg'.tasks
  have hpkg : flattenPkg ⟨pkg'.tasks⟩ = flattenPkg pkg' := rfl
  rw [hpkg] at hr
  constructor <;>
  · simp only [Build.run, h]
    cases h2 : (runTasks b runner pkg'.tasks).2.2 <;>
      simp [RunResult.executed, RunResult.result, ← hr, h2]

/-- Witness for C5: a one-task, one-command package on a healthy root
target with a successful runner. -/
theorem claim_C5_witness :
    ((allOkBuild "root" none "").run
        ⟨[⟨"base", [⟨⟨"c1", some "k1", none⟩, false⟩]⟩]⟩ (fun _ _ => none)).executed =
      (specExecute (fun _ _ => none)
        (flattenPkg ⟨[⟨"base", [⟨⟨"c1", some "k1", none⟩, false⟩]⟩]⟩)).1 ∧
    ((allOkBuild "root" none "").run
        ⟨[⟨"base", [⟨⟨"c1", some "k1", none⟩, false⟩]⟩]⟩ (fun _ _ => none)).result =
      (specExecute (fun _ _ => none)
        (flattenPkg ⟨[⟨"base", [⟨⟨"c1", some "k1", none⟩, false⟩]⟩]⟩)).2 :=
  claim_C5 (allOkBuild "root" none "")
    ⟨[⟨"base", [⟨⟨"c1", some "k1", none⟩, false⟩]⟩]⟩
    ⟨[⟨"base", [⟨⟨"c1", some "k1", none⟩, false⟩]⟩]⟩ (fun _ _ => none) rfl

theorem buildTaskLoop_hostname (b : Build) (runner : RunnerOracle) (t : String)
    (cs : List CommandEntry) :
    ∀ m ∈ (buildTaskLoop b runner t cs).1, m.hostname = b.hostname := by
  induction cs with
  | nil => intro m hm; cases hm
  | cons c rest ih =>
    intro m hm
    simp only [buildTaskLoop] at hm
    by_cases hc : c.cached = true
    · rw [if_pos hc] at hm
      rcases List.mem_cons.mp hm with rfl | hmem
      · rfl
      · exact ih m hmem
    · rw [if_neg hc] at hm
      cases hrun : runner t c.command with
      | none =>
        rw [hrun] at hm
        rcases List.mem_cons.mp hm with rfl | hm1
        · rfl
        rcases List.mem_cons.mp hm1 with rfl | hmem
        · rfl
        · exact ih m hmem
      | some e =>
        rw [hrun] at hm
        rcases List.mem_cons.mp hm with rfl | hm1
        · rfl
        rcases List.mem_cons.mp hm1 with rfl | hmem
        · rfl
        · cases hmem

theorem runTasks_hostname (b : Build) (runner : RunnerOracle) (ts : List Task) :
    ∀ m ∈ (runTasks b runner ts).1, m.hostname = b.hostname := by
  induction ts with
  | nil => intro m hm; cases hm
  | cons t rest ih =>
    intro m hm
    simp only [runTasks, buildTask] at hm
    cases h2 : (buildTaskLoop b runner t.name t.commands).2.2 with
    | some e =>
      rw [h2] at hm
      exact buildTaskLoop_hostname b runner t.name t.commands m hm
    | none =>
      rw [h2] at hm
      rcases List.mem_append.mp hm with hm1 | hm2
      · exact buildTaskLoop_hostname b runner t.name t.commands m hm1
      · exact ih m hm2

/-- C10: `Build.hostname` is the target's `String()` value when the
target provides one and the literal `"MISSING"` otherwise, and every
message `Run` and `DryRun` publish carries exactly that hostname. -/
theorem claim_C10 (b : Build) (pkg : PackageImpl) (runner : RunnerOracle) :
    (b.target.stringRep = none → b.hostname = "MISSING") ∧
    (∀ s, b.target.stringRep = some s → b.hostname = s) ∧
    (∀ m ∈ (b.run pkg runner).msgs, m.hostname = b.hostname) ∧
    (∀ m ∈ (b.dryRun pkg).1, m.hostname = b.hostname) := by
  refine ⟨fun h => by simp [Build.hostname, h],
          fun s h => by simp [Build.hostname, h], ?_, ?_⟩
  · intro m hm
    simp only [Build.run] at hm
    split at hm
    · cases hm
    · rename_i pkg' hp
      split at hm
      all_goals
        rcases List.mem_cons.mp hm with rfl | hm1
        · rfl
        · rcases List.mem_append.mp hm1 with hm2 | hm3
          · exact runTasks_hostname b runner pkg'.tasks m hm2
          · rcases List.mem_singleton.mp hm3 with rfl
            rfl
  · intro m hm
    simp only [Build.dryRun] at hm
    split at hm
    · cases hm
    · rename_i pkg' hp
      simp only [List.mem_flatten, List.mem_map] at hm
      obtain ⟨ms, ⟨t, ht, rfl⟩, hmm⟩ := hm
      obtain ⟨c, hc, rfl⟩ := List.mem_map.mp hmm
      simp only [dryRunMsg]
      by_cases hcc : c.cached = true
      · rw [if_pos hcc]
        rfl
      · rw [if_neg hcc]
        rfl

/-- Witness for C10: a target with `String() = "db-1"` stamps that
hostname; a target without `String()` stamps `"MISSING"` on the run's
opening message. -/
theorem claim_C10_witness :
    Build.hostname (allOkBuild "root" (some "db-1") "") = "db-1" ∧
    ({ message MessageRunlistsProvision "MISSING" "" with
        publish := "started" } : Message).hostname = "MISSING" := by
  constructor
  · exact (claim_C10 (allOkBuild "root" (some "db-1") "") ⟨[]⟩
      (fun _ _ => none)).2.1 "db-1" rfl
  · have h := (claim_C10 (allOkBuild "root" none "") ⟨[]⟩
      (fun _ _ => none)).2.2.1
      { message MessageRunlistsProvision "MISSING" "" with publish := "started" }
      (by decide)
    simpa using h

end Urknall
